import Mathlib

/-!
# VideoCarousel (`src/App.jsx`): slide index, persistence and playback

A shallow embedding of the `VideoCarousel` component of `src/App.jsx`, followed by the
`toggle` updater of `FAQSection` and the submit handler of the contact form.

* JavaScript numbers are IEEE doubles.  Every number the component handles is an integer, a
  NaN or an infinity, so a finite number is carried as an `Int`; `toF64` rounds the integer read
  by `Number.parseInt` to the nearest double, and the sums of the index updaters (`+ 1`, `- 1`,
  `+ count`) are rounded to the nearest double by `addF64`.  The remainder `%` of two
  integer-valued doubles is exact.
* The signed zero is not distinguished: `-0` only arises from `parseInt("-0")`, and
  `Math.max(0, -0)` is `+0`.
* React state updates are followed by the effects whose dependencies changed; each handler runs
  to completion before the next event is delivered.
-/

namespace VideoCarousel

/-! ## JavaScript numbers and strings -/

/-- A JavaScript number as the component can see one: NaN, an infinity, or a finite
integer-valued double. -/
inductive JSNumber where
  | nan
  | posInf
  | negInf
  | fin (v : Int)
  deriving DecidableEq, Repr

/-- The test `Number.isFinite(n)`. -/
def JSNumber.isFinite : JSNumber → Bool
  | .fin _ => true
  | _ => false

/-- The double nearest to the non-negative integer `m`, ties to the even significand;
`none` when the rounding overflows to `Infinity`. -/
def toF64 (m : Nat) : Option Nat :=
  if m < 2 ^ 53 then some m
  else
    let e := Nat.log2 m - 52
    let q := m / 2 ^ e
    let r := m % 2 ^ e
    let half := 2 ^ (e - 1)
    let q' := if half < r ∨ (r = half ∧ q % 2 = 1) then q + 1 else q
    if 2 ^ 1024 ≤ q' * 2 ^ e then none else some (q' * 2 ^ e)

/-- ECMAScript `WhiteSpace` and `LineTerminator` code points, as stripped by `parseInt`. -/
def isWhiteSpace (c : Char) : Bool :=
  c.toNat ∈ [0x9, 0xA, 0xB, 0xC, 0xD, 0x20, 0xA0, 0x1680, 0x2028, 0x2029, 0x202F, 0x205F,
    0x3000, 0xFEFF] || (0x2000 ≤ c.toNat && c.toNat ≤ 0x200A)

/-- A radix-10 digit. -/
def isDigit (c : Char) : Bool := 48 ≤ c.toNat && c.toNat ≤ 57

/-- Value of a radix-10 digit. -/
def digitVal (c : Char) : Nat := c.toNat - 48

/-- The integer written by a run of radix-10 digits. -/
def mathInt (z : List Char) : Nat := z.foldl (fun acc c => 10 * acc + digitVal c) 0

/-- The input of `parseInt` after its leading white space is skipped. -/
def trimmed (input : String) : List Char := input.toList.dropWhile isWhiteSpace

/-- The input of `parseInt` after the white space and one optional sign are skipped. -/
def unsigned (input : String) : List Char :=
  if (trimmed input).head? = some '+' ∨ (trimmed input).head? = some '-' then
    (trimmed input).tail
  else trimmed input

/-- The call `Number.parseInt(input, 10)`: skip leading white space, read an optional sign, take the
longest run of decimal digits (NaN when it is empty) and round its value to a double. -/
def parseInt (input : String) : JSNumber :=
  let neg := decide ((trimmed input).head? = some '-')
  let z := (unsigned input).takeWhile isDigit
  if z = [] then .nan
  else
    match toF64 (mathInt z) with
    | none => if neg then .negInf else .posInf
    | some v => .fin (if neg then -(v : Int) else v)

/-- The decimal significand `s` and the exponent `n` of `Number::toString` for a positive
integer-valued double `x`: the value `s * 10 ^ (n - k)`, with `k` the number of digits of `s`,
rounds to `x`, and `k` is least. -/
def shortestDecimal (x : Nat) : Nat × Nat :=
  let d := (Nat.toDigits 10 x).length
  if toF64 (10 ^ d) = some x then (1, d + 1)
  else
    let pick := fun (j : Nat) =>
      let k := j + 1
      let p := 10 ^ (d - k)
      let lo := x / p
      let okLo := decide (toF64 (lo * p) = some x)
      let okHi := decide (toF64 ((lo + 1) * p) = some x)
      if okLo ∧ okHi then
        let dLo := x - lo * p
        let dHi := (lo + 1) * p - x
        if dLo < dHi ∨ (dLo = dHi ∧ lo % 2 = 0) then some lo else some (lo + 1)
      else if okLo then some lo
      else if okHi then some (lo + 1)
      else none
    match (List.range (min d 17)).findSome? pick with
    | some s => (s, d)
    | none => (x, d)

/-- The string `String(v)` for an integer-valued double `v` (`Number::toString`, radix 10): the plain
decimal digits below `2 ^ 53`; above, the shortest digits that round to `v`, padded with zeros
while `v < 10 ^ 21` and in exponent form from there on. -/
def numberToString (v : Int) : String :=
  let x := v.natAbs
  let sign := if v < 0 then "-" else ""
  if x < 2 ^ 53 then sign ++ (Nat.toDigits 10 x).asString
  else
    let (s, n) := shortestDecimal x
    let ds := Nat.toDigits 10 s
    let k := ds.length
    if n ≤ 21 then sign ++ (ds ++ List.replicate (n - k) '0').asString
    else
      let e := (Nat.toDigits 10 (n - 1)).asString
      if k = 1 then sign ++ ds.asString ++ "e+" ++ e
      else sign ++ (ds.take 1).asString ++ "." ++ (ds.drop 1).asString ++ "e+" ++ e

/-! ## Session storage -/

/-- The session store: its entries, whether it can be reached at all (any access throws when
it cannot) and whether its quota is exhausted (writes throw). -/
structure Storage where
  items : String → Option String
  accessible : Bool
  full : Bool

/-- The call `sessionStorage.getItem(key)`: `null` for a missing key; throws when the store cannot be
reached. -/
def Storage.getItem (st : Storage) (key : String) : Except Unit (Option String) :=
  if st.accessible then .ok (st.items key) else .error ()

/-- The call `sessionStorage.setItem(key, value)`: it throws when the store cannot be
reached or is full. -/
def Storage.setItem (st : Storage) (key value : String) : Except Unit Storage :=
  if st.accessible && !st.full then
    .ok { st with items := fun k => if k = key then some value else st.items k }
  else .error ()

/-! ## Slide index -/

/-- The value `Math.max(0, n)` for a finite `n`. -/
def maxZero : JSNumber → Int
  | .fin v => max 0 v
  | _ => 0

/-- The body of the `try` block of the state initializer (lines 30-32). -/
def initBody (st : Storage) (persistKey : String) : Except Unit Int := do
  let saved ← st.getItem persistKey
  let n := parseInt (saved.getD "0")
  pure (if n.isFinite then maxZero n else 0)

/-- The lazy initializer of the index state (lines 28-36): the `catch` returns 0. -/
def initIndex (st : Storage) (persistKey : String) : Int :=
  match initBody st persistKey with
  | .ok v => v
  | .error _ => 0

/-- The double nearest to the integer `v`, ties to the even significand.  A magnitude that
would round to an infinity is left as it is: no sum of the updaters reaches one. -/
def roundF64 (v : Int) : Int :=
  match toF64 v.natAbs with
  | some m => if v < 0 then -(m : Int) else m
  | none => v

/-- The sum `a + b` of two integer-valued doubles in a carousel of `count` slides.  A slide
count is the length of a JavaScript array and so is below `2 ^ 32`: for such a count the sum is
the double nearest to `a + b`, as in the code.  No array has a greater length; for such a
`count` the sum is taken exactly. -/
def addF64 (count : Nat) (a b : Int) : Int :=
  if count < 2 ^ 32 then roundF64 (a + b) else a + b

/-- The updater `(p) => (p + 1) % count` of ArrowRight, of the Next button and of `onEnded`;
`%` is the truncating remainder of JavaScript.  Every call site of the three updaters is
reached with `count` nonzero only (the guard of `onKey`; no button, video or host element
otherwise), so the NaN of a remainder by 0 does not arise. -/
def nextIndex (count : Nat) (p : Int) : Int := Int.tmod (addF64 count p 1) count

/-- The updater `(p) => (p - 1 + count) % count` of ArrowLeft and of the Previous button. -/
def prevIndex (count : Nat) (p : Int) : Int :=
  Int.tmod (addF64 count (addF64 count p (-1)) count) count

/-- The updater `(p) => (p + (dx < 0 ? 1 : -1) + count) % count` of the swipe handler. -/
def swipeIndex (count : Nat) (dx : Int) (p : Int) : Int :=
  Int.tmod (addF64 count (addF64 count p (if dx < 0 then 1 else -1)) count) count

/-- The keydown handler `onKey` (lines 84-88), as a function of the index. -/
def onKey (count : Nat) (key : String) (p : Int) : Int :=
  if count = 0 then p
  else
    let p1 := if key = "ArrowRight" then nextIndex count p else p
    if key = "ArrowLeft" then prevIndex count p1 else p1

/-- The touchstart handler `dn` (line 98): the new `x0`, given the first touch point's
`clientX` when there is one. -/
def dn (clientX : Option Int) : Option Int := clientX

/-- The touchmove handler `mv` (lines 99-106): the new `x0` and the updaters it passes to
`setI`, in order.  Coordinates are whole CSS pixels. -/
def mv (count : Nat) (clientX : Option Int) (x0 : Option Int) : Option Int × List (Int → Int) :=
  match x0 with
  | none => (none, [])
  | some x =>
    let dx := clientX.getD 0 - x
    if |dx| > 40 then (none, [swipeIndex count dx]) else (some x, [])

/-- The index state after React has applied the queued updaters. -/
def applyUpdates (us : List (Int → Int)) (p : Int) : Int := us.foldl (fun q u => u q) p

/-- The touchmove events of one gesture, handled in order from the tracked start `x0`: the
final `x0` and every updater passed to `setI`. -/
def gesture (count : Nat) : Option Int → List (Option Int) → Option Int × List (Int → Int)
  | x0, [] => (x0, [])
  | x0, c :: cs =>
    ((gesture count (mv count c x0).1 cs).1,
      (mv count c x0).2 ++ (gesture count (mv count c x0).1 cs).2)

/-- The handler `onEnded(idx)` (lines 123-126), rendered with active index `i`, applied to
the index state `p`. -/
def onEnded (count : Nat) (i : Int) (idx : Nat) (p : Int) : Int :=
  if (idx : Int) ≠ i then p else nextIndex count p

/-- The spec's `advance(direction)`, in its words: the active index becomes
`(current + direction + slideCount) mod slideCount`. -/
def specAdvance (slideCount : Nat) (direction : Int) (current : Int) : Int :=
  (current + direction + slideCount) % slideCount

/-! ## Media handles and effects -/

/-- What the component reads and writes of a `<video>` element. -/
structure Media where
  paused : Bool
  currentTime : ℚ
  deriving DecidableEq, Repr

/-- Apply `f` to the handle stored at `vidRefs.current[i]`, when there is one. -/
def updateAt (media : List (Option Media)) (i : Int) (f : Media → Media) :
    List (Option Media) :=
  media.mapIdx fun idx v => if (idx : Int) = i then v.map f else v

/-- The effect persisting the index (lines 51-53): a failed write is dropped. -/
def persistEffect (persistKey : String) (i : Int) (st : Storage) : Storage :=
  match st.setItem persistKey (numberToString i) with
  | .ok st' => st'
  | .error _ => st

/-- The `forEach` of the reset effect (lines 57-61) from slide `idx` on, over handles whose
`pause()` and whose `currentTime` setter may throw: the handles afterwards, and whether an
exception left the callback.  `v.pause()` stands inside `try`/`catch`; the assignment
`v.currentTime = 0` does not, so its exception ends the loop. -/
def resetFrom (pauseThrows seekThrows : Nat → Bool) (i : Int) :
    Nat → List (Option Media) → List (Option Media) × Bool
  | _, [] => ([], false)
  | idx, none :: rest =>
    (none :: (resetFrom pauseThrows seekThrows i (idx + 1) rest).1,
      (resetFrom pauseThrows seekThrows i (idx + 1) rest).2)
  | idx, some m :: rest =>
    if (idx : Int) = i then
      (some m :: (resetFrom pauseThrows seekThrows i (idx + 1) rest).1,
        (resetFrom pauseThrows seekThrows i (idx + 1) rest).2)
    else if seekThrows idx then
      (some { m with paused := if pauseThrows idx then m.paused else true } :: rest, true)
    else
      (some { paused := if pauseThrows idx then m.paused else true, currentTime := 0 } ::
          (resetFrom pauseThrows seekThrows i (idx + 1) rest).1,
        (resetFrom pauseThrows seekThrows i (idx + 1) rest).2)

/-- The effect resetting the non-active videos (lines 56-62), over handles that may throw. -/
def resetEffectWith (pauseThrows seekThrows : Nat → Bool) (i : Int)
    (media : List (Option Media)) : List (Option Media) × Bool :=
  resetFrom pauseThrows seekThrows i 0 media

/-- The effect resetting the non-active videos (lines 56-62), over handles that accept
`pause()` and the seek. -/
def resetEffect (i : Int) (media : List (Option Media)) : List (Option Media) :=
  (resetEffectWith (fun _ => false) (fun _ => false) i media).1

/-- The IntersectionObserver callback (lines 69-75); `ents` lists `isIntersecting` of the
reported entries. -/
def onIntersect (ents : List Bool) (i : Int) (media : List (Option Media)) :
    List (Option Media) :=
  let visible := ents.any id
  if !visible then updateAt media i fun v => if !v.paused then { v with paused := true } else v
  else media

/-- Number of slides whose video is playing (has a handle that is not paused). -/
def playingCount (media : List (Option Media)) : Nat :=
  media.countP fun v => match v with
    | some m => !m.paused
    | none => false

/-! ## The mounted component -/

/-- What the render shows of the slide strip: the number of slides and the strip offset
`i * 100` of `translateX(-{i * 100}%)`. -/
structure View where
  slides : Nat
  offsetPercent : Int
  deriving DecidableEq, Repr

/-- The render result: `null` when there is no slide (line 115). -/
def render (count : Nat) (i : Int) : Option View :=
  if count = 0 then none else some { slides := count, offsetPercent := i * 100 }

/-- State of a mounted carousel: the index state `i`, the swipe start `x0`, the handles
`vidRefs.current` and the session store. -/
structure State where
  i : Int
  x0 : Option Int
  media : List (Option Media)
  storage : Storage

/-- Events delivered to a mounted carousel.  `play`, `pause` and `timeupdate` come from the
native controls and the playback of slide `idx`: every `<video>` is rendered with `controls`,
and the component listens to none of the three. -/
inductive Event where
  | keydown (key : String)
  | clickPrevious
  | clickNext
  | touchstart (clientX : Option Int)
  | touchmove (clientX : Option Int)
  | ended (idx : Nat)
  | play (idx : Nat)
  | pause (idx : Nat)
  | timeupdate (idx : Nat) (t : ℚ)
  | intersection (ents : List Bool)

/-- The handler of an event.  With `count = 0` the component renders `null` (line 115): there
is no host element (line 97), button or video, so only the window keydown listener exists. -/
def handle (count : Nat) (s : State) : Event → State
  | .keydown key => { s with i := onKey count key s.i }
  | .clickPrevious => if count = 0 then s else { s with i := prevIndex count s.i }
  | .clickNext => if count = 0 then s else { s with i := nextIndex count s.i }
  | .touchstart x => if count = 0 then s else { s with x0 := dn x }
  | .touchmove x =>
    if count = 0 then s
    else { s with x0 := (mv count x s.x0).1, i := applyUpdates (mv count x s.x0).2 s.i }
  | .ended idx => if idx < count then { s with i := onEnded count s.i idx s.i } else s
  | .play idx => { s with media := updateAt s.media idx fun v => { v with paused := false } }
  | .pause idx => { s with media := updateAt s.media idx fun v => { v with paused := true } }
  | .timeupdate idx t =>
    { s with media := updateAt s.media idx fun v => { v with currentTime := t } }
  | .intersection ents => { s with media := onIntersect ents s.i s.media }

/-- The effects that depend on the index, run after a render in which it changed from `old`,
over handles that accept `pause()` and the seek. -/
def runEffects (persistKey : String) (old : Int) (s : State) : State :=
  if s.i = old then s
  else { s with storage := persistEffect persistKey s.i s.storage,
                media := resetEffect s.i s.media }

/-- One event: its handler, then the effects of the re-render. -/
def step (count : Nat) (persistKey : String) (s : State) (ev : Event) : State :=
  runEffects persistKey s.i (handle count s ev)

/-- Mounting: the initializer, fresh paused videos, then every effect once.  As in
`runEffects`, the handles accept `pause()` and the seek. -/
def mount (count : Nat) (persistKey : String) (st : Storage) : State :=
  { i := initIndex st persistKey
    x0 := none
    media := resetEffect (initIndex st persistKey)
      (List.replicate count (some { paused := true, currentTime := 0 }))
    storage := persistEffect persistKey (initIndex st persistKey) st }

/-- The state after a sequence of events. -/
def run (count : Nat) (persistKey : String) (s : State) (evs : List Event) : State :=
  evs.foldl (step count persistKey) s

/-- The states seen after each event of a sequence, the starting state first. -/
def trace (count : Nat) (persistKey : String) : State → List Event → List State
  | s, [] => [s]
  | s, ev :: evs => s :: trace count persistKey (step count persistKey s ev) evs

/-- Every `play` of the sequence is on the slide that is active when it happens. -/
def playsOnActive (count : Nat) (persistKey : String) : State → List Event → Bool
  | _, [] => true
  | s, ev :: evs =>
    (match ev with
      | .play idx => decide ((idx : Int) = s.i)
      | _ => true) &&
    playsOnActive count persistKey (step count persistKey s ev) evs

/-- Only the active slide can be playing. -/
def onlyActivePlays (s : State) : Prop :=
  ∀ (idx : Nat) (m : Media),
    s.media[idx]? = some (some m) → m.paused = false → (idx : Int) = s.i

/-- A store that holds `value` under `key` and nothing else, and accepts reads and writes. -/
def storeWith (key value : String) : Storage :=
  { items := fun k => if k = key then some value else none, accessible := true, full := false }

/-- An empty store that accepts reads and writes. -/
def emptyStore : Storage := { items := fun _ => none, accessible := true, full := false }

end VideoCarousel

/-! # FAQSection (`src/App.jsx`): the set of open entries -/

namespace FAQSection

/-- The updater that `toggle(idx)` passes to `setOpen` (lines 210-218): on a copy of the
previous set, delete `idx` when it is there; otherwise clear the copy unless `allowMultiple`,
then add `idx`. -/
def toggle (allowMultiple : Bool) (idx : Nat) (prev : Finset Nat) : Finset Nat :=
  if idx ∈ prev then prev.erase idx
  else insert idx (if !allowMultiple then ∅ else prev)

/-- The open set after a sequence of `toggle` calls, from the initial `new Set()`. -/
def openAfter (allowMultiple : Bool) (idxs : List Nat) : Finset Nat :=
  idxs.foldl (fun prev idx => toggle allowMultiple idx prev) ∅

end FAQSection

/-! # App (`src/App.jsx`): the contact form submit handler -/

namespace App

/-- A call of `fetch`: the URL, the method, the `Content-Type` header and the form entries
that `encode` serialises into the body. -/
structure Request where
  url : String
  method : String
  contentType : String
  body : List (String × String)
  deriving DecidableEq, Repr

/-- How the awaited `fetch` ends: a response with `res.ok`, a response without it, or a
rejection. -/
inductive FetchResult where
  | ok
  | notOk
  | networkError
  deriving DecidableEq, Repr

/-- What the handler reads and writes: the two state flags, the requests issued so far, the
alerts shown and the number of `form.reset()` calls. -/
structure FormState where
  submitting : Bool
  showThanks : Bool
  requests : List Request
  alerts : List String
  resets : Nat
  deriving DecidableEq, Repr

/-- The call `fd.get(name)`: the value of the first entry with that name, `null` without
one. -/
def fdGet (fd : List (String × String)) (name : String) : Option String :=
  (fd.find? fun e => e.1 = name).map fun e => e.2

/-- The call `fd.set(name, value)`: the first entry with that name takes the value and the
later ones are removed; without such an entry one is appended. -/
def fdSet : List (String × String) → String → String → List (String × String)
  | [], name, value => [(name, value)]
  | (k, v) :: rest, name, value =>
    if k = name then (name, value) :: rest.filter fun e => e.1 ≠ name
    else (k, v) :: fdSet rest name value

/-- Truthiness of the result of `fd.get`: a non-empty string. -/
def truthy : Option String → Bool
  | some v => v ≠ ""
  | none => false

/-- The entries sent: `form-name` is set from the form's `name` attribute when it has no
value yet (line 321). -/
def withFormName (formName : Option String) (fields : List (String × String)) :
    List (String × String) :=
  if !truthy (fdGet fields "form-name") then fdSet fields "form-name" (formName.getD "null")
  else fields

/-- The handler `handleContactSubmit` (lines 312-350) run to completion: `s` holds the state
of the render that created it, `formName` is the form's `name` attribute, `fields` are the
form's entries and `result` is how the awaited `fetch` ends. -/
def handleContactSubmit (s : FormState) (formName : Option String)
    (fields : List (String × String)) (result : FetchResult) : FormState :=
  if s.submitting then s
  else if truthy (fdGet (withFormName formName fields) "bot-field") then
    { s with showThanks := true, submitting := false, resets := s.resets + 1 }
  else
    let sent : List Request := s.requests ++
      [{ url := "/", method := "POST", contentType := "application/x-www-form-urlencoded",
         body := withFormName formName fields }]
    match result with
    | .ok => { s with requests := sent, showThanks := true, resets := s.resets + 1,
                      submitting := false }
    | .notOk =>
      { s with requests := sent, submitting := false,
               alerts := s.alerts ++ ["Sorry, something went wrong sending your message."] }
    | .networkError =>
      { s with requests := sent, submitting := false,
               alerts := s.alerts ++ ["Network error while sending your message."] }

end App

namespace VideoCarousel

/-! ## Index arithmetic -/

theorem toF64_small (m : Nat) (h : m < 2 ^ 53) : toF64 m = some m := by
  unfold toF64
  rw [if_pos h]

theorem roundF64_small (v : Int) (h : v.natAbs < 2 ^ 53) : roundF64 v = v := by
  unfold roundF64
  rw [toF64_small _ h]
  dsimp only
  split <;> omega

theorem roundF64_nonneg (v : Int) (h : 0 ≤ v) : 0 ≤ roundF64 v := by
  unfold roundF64
  split
  · rw [if_neg (by omega)]
    exact Int.ofNat_nonneg _
  · exact h

theorem addF64_exact (count : Nat) (a b : Int) (h : count < 2 ^ 32 → (a + b).natAbs < 2 ^ 53) :
    addF64 count a b = a + b := by
  unfold addF64
  split
  · next hc => exact roundF64_small _ (h hc)
  · rfl

theorem addF64_nonneg (count : Nat) (a b : Int) (h : 0 ≤ a + b) : 0 ≤ addF64 count a b := by
  unfold addF64
  split
  · exact roundF64_nonneg _ h
  · exact h

/-- Subtracting or adding one keeps a non-negative index at or above `-1`. -/
theorem addF64_unit (count : Nat) (p d : Int) (hp : 0 ≤ p) (hd : d = 1 ∨ d = -1) :
    -1 ≤ addF64 count p d := by
  by_cases h0 : p = 0
  · subst h0
    rw [addF64_exact count 0 d (fun _ => by rcases hd with h | h <;> subst h <;> decide)]
    omega
  · have := addF64_nonneg count p d (by omega)
    omega

theorem tmod_range (n : Nat) (a : Int) (hn : 0 < n) (ha : 0 ≤ a) :
    0 ≤ Int.tmod a n ∧ Int.tmod a n < n := by
  rw [Int.tmod_eq_emod ha (Int.ofNat_nonneg n)]
  exact ⟨Int.emod_nonneg _ (by omega), Int.emod_lt_of_pos _ (by omega)⟩

theorem nextIndex_eq_emod (n : Nat) (p : Int) (hp : 0 ≤ p) (hlt : p < n) :
    nextIndex n p = (p + 1) % n := by
  unfold nextIndex
  rw [addF64_exact n p 1 (fun hc => by omega)]
  exact Int.tmod_eq_emod (by omega) (Int.ofNat_nonneg n)

theorem prevIndex_eq_emod (n : Nat) (p : Int) (hn : 0 < n) (hp : 0 ≤ p) (hlt : p < n) :
    prevIndex n p = (p - 1 + n) % n := by
  unfold prevIndex
  rw [addF64_exact n p (-1) (fun hc => by omega)]
  rw [addF64_exact n (p + -1) n (fun hc => by omega)]
  exact Int.tmod_eq_emod (by omega) (Int.ofNat_nonneg n)

theorem swipeIndex_eq_emod (n : Nat) (dx p : Int) (hn : 0 < n) (hp : 0 ≤ p) (hlt : p < n) :
    swipeIndex n dx p = (p + (if dx < 0 then 1 else -1) + n) % n := by
  unfold swipeIndex
  have hd : (if dx < 0 then (1 : Int) else -1) = 1 ∨ (if dx < 0 then (1 : Int) else -1) = -1 := by
    split
    · exact Or.inl rfl
    · exact Or.inr rfl
  rw [addF64_exact n p _ (fun hc => by rcases hd with h | h <;> rw [h] <;> omega)]
  rw [addF64_exact n _ n (fun hc => by rcases hd with h | h <;> rw [h] <;> omega)]
  exact Int.tmod_eq_emod (by rcases hd with h | h <;> rw [h] <;> omega) (Int.ofNat_nonneg n)

theorem emod_range (n : Nat) (a : Int) (hn : 0 < n) : 0 ≤ a % (n : Int) ∧ a % (n : Int) < n :=
  ⟨Int.emod_nonneg _ (by omega), Int.emod_lt_of_pos _ (by omega)⟩

theorem nextIndex_range (n : Nat) (p : Int) (hn : 0 < n) (hp : 0 ≤ p) :
    0 ≤ nextIndex n p ∧ nextIndex n p < n :=
  tmod_range n _ hn (addF64_nonneg n p 1 (by omega))

theorem prevIndex_range (n : Nat) (p : Int) (hn : 0 < n) (hp : 0 ≤ p) :
    0 ≤ prevIndex n p ∧ prevIndex n p < n := by
  have h1 := addF64_unit n p (-1) hp (Or.inr rfl)
  exact tmod_range n _ hn (addF64_nonneg n _ n (by omega))

theorem swipeIndex_range (n : Nat) (dx p : Int) (hn : 0 < n) (hp : 0 ≤ p) :
    0 ≤ swipeIndex n dx p ∧ swipeIndex n dx p < n := by
  have h1 := addF64_unit n p (if dx < 0 then 1 else -1) hp
    (by split
        · exact Or.inl rfl
        · exact Or.inr rfl)
  exact tmod_range n _ hn (addF64_nonneg n _ n (by omega))

/-- Inside `[0, n)` the next-slide updater steps up by one and wraps from `n - 1` to 0. -/
theorem nextIndex_cases (n : Nat) (p : Int) (hp : 0 ≤ p) (hlt : p < n) :
    nextIndex n p = if p + 1 = n then 0 else p + 1 := by
  rw [nextIndex_eq_emod n p hp hlt]
  split
  · next h => rw [h]; exact Int.emod_self
  · next h => exact Int.emod_eq_of_lt (by omega) (by omega)

/-- Inside `[0, n)` the previous-slide updater steps down by one and wraps from 0 to `n - 1`. -/
theorem prevIndex_cases (n : Nat) (p : Int) (hp : 0 ≤ p) (hlt : p < n) :
    prevIndex n p = if p = 0 then (n : Int) - 1 else p - 1 := by
  rw [prevIndex_eq_emod n p (by omega) hp hlt]
  split
  · next h => subst h; exact Int.emod_eq_of_lt (by omega) (by omega)
  · next h =>
    rw [Int.add_emod_self]
    exact Int.emod_eq_of_lt (by omega) (by omega)

theorem onKey_range (n : Nat) (key : String) (p : Int) (hn : 0 < n) (hp : 0 ≤ p) (hlt : p < n) :
    0 ≤ onKey n key p ∧ onKey n key p < n := by
  unfold onKey
  have h1 := nextIndex_range n p hn hp
  rw [if_neg (by omega)]
  by_cases hr : key = "ArrowRight" <;> by_cases hl : key = "ArrowLeft" <;>
    simp only [hr, hl, if_true, if_false]
  all_goals first
    | exact ⟨hp, hlt⟩
    | exact h1
    | exact prevIndex_range n _ hn hp

theorem runEffects_i (key : String) (old : Int) (s : State) : (runEffects key old s).i = s.i := by
  unfold runEffects; split <;> rfl

theorem step_range (n : Nat) (key : String) (s : State) (ev : Event) (hn : 0 < n)
    (hp : 0 ≤ s.i) (hlt : s.i < n) :
    0 ≤ (step n key s ev).i ∧ (step n key s ev).i < n := by
  unfold step
  rw [runEffects_i]
  have hn0 : ¬ n = 0 := by omega
  cases ev with
  | keydown k => exact onKey_range n k s.i hn hp hlt
  | clickPrevious => simp only [handle, hn0, if_false]; exact prevIndex_range n _ hn hp
  | clickNext => simp only [handle, hn0, if_false]; exact nextIndex_range n _ hn hp
  | touchstart x => simp only [handle, hn0, if_false]; exact ⟨hp, hlt⟩
  | touchmove x =>
    simp only [handle, hn0, if_false]
    unfold mv
    cases s.x0 with
    | none => exact ⟨hp, hlt⟩
    | some x0 =>
      dsimp only
      split
      · exact swipeIndex_range n _ _ hn hp
      · exact ⟨hp, hlt⟩
  | ended idx =>
    simp only [handle]
    split
    · unfold onEnded
      split
      · exact ⟨hp, hlt⟩
      · exact nextIndex_range n _ hn hp
    · exact ⟨hp, hlt⟩
  | play idx => exact ⟨hp, hlt⟩
  | pause idx => exact ⟨hp, hlt⟩
  | timeupdate idx t => exact ⟨hp, hlt⟩
  | intersection ents => exact ⟨hp, hlt⟩

/-- C1: with `n > 0` slides and a starting index in `[0, n)`, the index is in `[0, n)` after
each event of any sequence of key presses, button clicks, touch events and `ended` events. -/
theorem index_in_range_after_each_transition (n : Nat) (key : String) (s : State)
    (evs : List Event) (hn : 0 < n) (hp : 0 ≤ s.i) (hlt : s.i < n) :
    ∀ s' ∈ trace n key s evs, 0 ≤ s'.i ∧ s'.i < n := by
  induction evs generalizing s with
  | nil =>
    intro s' hs'
    simp only [trace, List.mem_singleton] at hs'
    subst hs'; exact ⟨hp, hlt⟩
  | cons ev evs ih =>
    intro s' hs'
    simp only [trace, List.mem_cons] at hs'
    rcases hs' with h | h
    · subst h; exact ⟨hp, hlt⟩
    · have hr := step_range n key s ev hn hp hlt
      exact ih (step n key s ev) hr.1 hr.2 s' h

/-- Witness of C1: three slides, mounted on an empty store, then a swipe, both arrow keys, a
click and an `ended` event. -/
theorem index_in_range_after_each_transition_witness :
    0 < 3 ∧ 0 ≤ (mount 3 "vc-index" emptyStore).i ∧ (mount 3 "vc-index" emptyStore).i < (3 : Nat) ∧
      ∀ s' ∈ trace 3 "vc-index" (mount 3 "vc-index" emptyStore)
        [.touchstart (some 200), .touchmove (some 120), .keydown "ArrowRight",
          .keydown "ArrowLeft", .clickNext, .ended 2],
        0 ≤ s'.i ∧ s'.i < (3 : Nat) :=
  ⟨by decide, by decide, by decide,
    index_in_range_after_each_transition 3 "vc-index" (mount 3 "vc-index" emptyStore) _
      (by decide) (by decide) (by decide)⟩

/-- C5: inside `[0, n)`, the next-slide update followed by the previous-slide update gives the
starting index back, and so does the previous-slide update followed by the next-slide one. -/
theorem next_prev_inverse (n : Nat) (i : Int) (hn : 0 < n) (hi : 0 ≤ i) (hlt : i < n) :
    prevIndex n (nextIndex n i) = i ∧ nextIndex n (prevIndex n i) = i := by
  have h1 := nextIndex_range n i hn hi
  have h2 := prevIndex_range n i hn hi
  constructor
  · rw [prevIndex_cases n _ h1.1 h1.2, nextIndex_cases n i hi hlt]
    split <;> split <;> omega
  · rw [nextIndex_cases n _ h2.1 h2.2, prevIndex_cases n i hi hlt]
    split <;> split <;> omega

/-- Witness of C5: five slides, index 4 (the wrap-around). -/
theorem next_prev_inverse_witness :
    0 < 5 ∧ (0 : Int) ≤ 4 ∧ (4 : Int) < (5 : Nat) ∧
      prevIndex 5 (nextIndex 5 4) = 4 ∧ nextIndex 5 (prevIndex 5 4) = 4 :=
  ⟨by decide, by decide, by decide, next_prev_inverse 5 4 (by decide) (by decide) (by decide)⟩

/-- C9: with `n > 0` slides and active index `i` in `[0, n)`, the handler of `ended` from
slide `idx` sets the index to `(i + 1) mod n` when `idx = i` and leaves it unchanged
otherwise. -/
theorem onEnded_advances_only_active (n : Nat) (i : Int) (idx : Nat) (_hn : 0 < n)
    (hi : 0 ≤ i) (hlt : i < n) :
    ((idx : Int) = i → onEnded n i idx i = (i + 1) % n) ∧
      ((idx : Int) ≠ i → onEnded n i idx i = i) := by
  constructor
  · intro h
    unfold onEnded
    rw [if_neg (by simpa using h)]
    exact nextIndex_eq_emod n i hi hlt
  · intro h
    unfold onEnded
    rw [if_pos h]

/-- Witness of C9: three slides, active index 2, `ended` from slide 2. -/
theorem onEnded_advances_only_active_witness :
    0 < 3 ∧ (0 : Int) ≤ 2 ∧ (2 : Int) < (3 : Nat) ∧
      ((((2 : Nat) : Int) = 2 → onEnded 3 2 2 2 = (2 + 1) % (3 : Nat)) ∧
        (((2 : Nat) : Int) ≠ 2 → onEnded 3 2 2 2 = 2)) :=
  ⟨by decide, by decide, by decide,
    onEnded_advances_only_active 3 2 2 (by decide) (by decide) (by decide)⟩


/-! ## The initializer -/

theorem initIndex_accessible (st : Storage) (key : String) (h : st.accessible = true) :
    initIndex st key =
      if (parseInt ((st.items key).getD "0")).isFinite then
        maxZero (parseInt ((st.items key).getD "0"))
      else 0 := by
  simp [initIndex, initBody, Storage.getItem, h, bind, Except.bind, pure, Except.pure]

theorem initBody_inaccessible (st : Storage) (key : String) (h : st.accessible = false) :
    initBody st key = .error () := by
  simp [initBody, Storage.getItem, h, bind, Except.bind]

theorem initIndex_inaccessible (st : Storage) (key : String) (h : st.accessible = false) :
    initIndex st key = 0 := by
  simp [initIndex, initBody_inaccessible st key h]

theorem maxZero_nonneg (n : JSNumber) : 0 ≤ maxZero n := by
  cases n <;> simp [maxZero]

theorem initIndex_nonneg (st : Storage) (key : String) : 0 ≤ initIndex st key := by
  cases h : st.accessible with
  | false => rw [initIndex_inaccessible st key h]
  | true =>
    rw [initIndex_accessible st key h]
    split
    · exact maxZero_nonneg _
    · exact le_refl 0

theorem initIndex_of_parse (st : Storage) (key : String) (v : Int) (h : st.accessible = true)
    (hv : parseInt ((st.items key).getD "0") = .fin v) : initIndex st key = max 0 v := by
  rw [initIndex_accessible st key h, hv]
  simp [JSNumber.isFinite, maxZero]

/-- C2 (the code at the failing input): three slides and the stored value "9" give the
initial index 9, which is outside `[0, 3)`. -/
theorem initIndex_stale_out_of_range :
    ¬ (0 ≤ initIndex (storeWith "k" "9") "k" ∧ initIndex (storeWith "k" "9") "k" < (3 : Nat)) := by
  decide

/-- C3 (the code at the failing input): three slides and the stored value "9", which parses
to `9 ≥ 3`, give the initial index 9, not 0. -/
theorem initIndex_stale_not_zero :
    parseInt "9" = .fin 9 ∧ ((3 : Nat) : Int) ≤ 9 ∧ initIndex (storeWith "k" "9") "k" ≠ 0 := by
  decide

/-- C6: when the read of the store throws, the exception raised inside the `try` block is
caught and the initial index is 0; when no value is stored under the key, the initial index
is 0. -/
theorem initIndex_zero_when_unreadable_or_absent (st : Storage) (key : String) :
    (st.accessible = false → initBody st key = .error () ∧ initIndex st key = 0) ∧
      (st.items key = none → initIndex st key = 0) := by
  constructor
  · intro h
    exact ⟨initBody_inaccessible st key h, initIndex_inaccessible st key h⟩
  · intro h
    cases hacc : st.accessible with
    | false => exact initIndex_inaccessible st key hacc
    | true =>
      have hp : parseInt ((st.items key).getD "0") = .fin 0 := by rw [h]; decide
      rw [initIndex_of_parse st key 0 hacc hp]; rfl

/-- Witness of C6: a store that throws on access, and an empty store. -/
theorem initIndex_zero_when_unreadable_or_absent_witness :
    ((({ items := fun _ => some "2", accessible := false, full := false } : Storage).accessible
        = false ∧
      initBody { items := fun _ => some "2", accessible := false, full := false } "k"
        = .error () ∧
      initIndex { items := fun _ => some "2", accessible := false, full := false } "k" = 0)) ∧
    (emptyStore.items "k" = none ∧ initIndex emptyStore "k" = 0) :=
  ⟨⟨rfl, (initIndex_zero_when_unreadable_or_absent
      { items := fun _ => some "2", accessible := false, full := false } "k").1 rfl⟩,
    ⟨rfl, (initIndex_zero_when_unreadable_or_absent emptyStore "k").2 rfl⟩⟩

/-- C7 (counterexample): the stored strings "2abc" and "1.5" are not decimal integers, yet the
initial index is 2 and 1, not 0. -/
theorem initIndex_malformed_not_zero :
    initIndex (storeWith "k" "2abc") "k" = 2 ∧ initIndex (storeWith "k" "1.5") "k" = 1 := by
  decide

theorem parseInt_nan_of_no_digit (s : String)
    (h : ∀ c, (unsigned s).head? = some c → isDigit c = false) : parseInt s = .nan := by
  have hz : (unsigned s).takeWhile isDigit = [] := by
    cases hu : unsigned s with
    | nil => rfl
    | cons c cs =>
      have hc := h c (by rw [hu]; rfl)
      simp [List.takeWhile, hc]
  simp [parseInt, hz]

theorem initIndex_zero_of_no_leading_digit (st : Storage) (key s : String)
    (hs : st.items key = some s)
    (h : ∀ c, (unsigned s).head? = some c → isDigit c = false) : initIndex st key = 0 := by
  cases hacc : st.accessible with
  | false => exact initIndex_inaccessible st key hacc
  | true =>
    rw [initIndex_accessible st key hacc, hs]
    simp [parseInt_nan_of_no_digit s h, JSNumber.isFinite]

theorem isDigit_not_space_or_sign (c : Char) (h : isDigit c = true) :
    isWhiteSpace c = false ∧ c ≠ '+' ∧ c ≠ '-' := by
  simp only [isDigit, Bool.and_eq_true, decide_eq_true_eq] at h
  refine ⟨?_, ?_, ?_⟩
  · unfold isWhiteSpace
    generalize c.toNat = a at h
    obtain ⟨h1, h2⟩ := h
    interval_cases a <;> rfl
  · intro hc
    subst hc
    revert h
    decide
  · intro hc
    subst hc
    revert h
    decide

theorem takeWhile_digit_run (ds rest : List Char) (hds : ∀ c ∈ ds, isDigit c = true)
    (hrest : ∀ c, rest.head? = some c → isDigit c = false) :
    (ds ++ rest).takeWhile isDigit = ds := by
  induction ds with
  | nil =>
    cases rest with
    | nil => rfl
    | cons c cs => simp [List.takeWhile, hrest c rfl]
  | cons d ds ih =>
    rw [List.cons_append, List.takeWhile_cons_of_pos (hds d (by simp)),
      ih (fun c hc => hds c (by simp [hc]))]

/-- Reading a string that starts with a run of digits: `parseInt` stops at the first
non-digit. -/
theorem parseInt_digit_run (s : String) (ds rest : List Char) (hs : s.toList = ds ++ rest)
    (hne : ds ≠ []) (hds : ∀ c ∈ ds, isDigit c = true)
    (hrest : ∀ c, rest.head? = some c → isDigit c = false) (hval : mathInt ds < 2 ^ 53) :
    parseInt s = .fin (mathInt ds) := by
  obtain ⟨d, ds', hd⟩ := List.exists_cons_of_ne_nil hne
  have hfacts := isDigit_not_space_or_sign d (hds d (by simp [hd]))
  have htrim : trimmed s = ds ++ rest := by
    unfold trimmed
    rw [hs, hd]
    simp [List.dropWhile, hfacts.1]
  have huns : unsigned s = ds ++ rest := by
    unfold unsigned
    rw [htrim, hd]
    simp [hfacts.2.1, hfacts.2.2]
  have hneg : ¬ ((ds ++ rest).head? = some '-') := by
    rw [hd]
    simp [hfacts.2.2]
  have hnil : ¬ (ds = []) := hne
  simp only [parseInt, huns, htrim, takeWhile_digit_run ds rest hds hrest, hnil, if_false,
    toF64_small _ hval, hneg, decide_False, Bool.false_eq_true]

/-- C7 (amended): a stored string in which the first character after leading white space and
one optional sign is not a decimal digit, or in which nothing follows them (as in "abc" and
""), gives the initial index 0.  A stored string that starts with decimal digits is read up
to its first non-digit: with `n` slides, when the value of that digit run is below `n`, the
initial index is that value ("1.5" gives 1 and "2abc" gives 2). -/
theorem initIndex_of_stored_string (n : Nat) (st : Storage) (key s : String) (hn : n ≤ 2 ^ 53)
    (hs : st.items key = some s) :
    ((∀ c, (unsigned s).head? = some c → isDigit c = false) → initIndex st key = 0) ∧
      (∀ ds rest : List Char, st.accessible = true → s.toList = ds ++ rest → ds ≠ [] →
        (∀ c ∈ ds, isDigit c = true) → (∀ c, rest.head? = some c → isDigit c = false) →
        mathInt ds < n → initIndex st key = mathInt ds) := by
  constructor
  · exact initIndex_zero_of_no_leading_digit st key s hs
  · intro ds rest hacc hsplit hne hds hrest hlt
    have hp : parseInt ((st.items key).getD "0") = .fin (mathInt ds) := by
      rw [hs]
      exact parseInt_digit_run s ds rest hsplit hne hds hrest (by omega)
    rw [initIndex_of_parse st key _ hacc hp]
    omega

/-- Witness of C7 (amended): three slides, the stored strings "abc" and "2abc". -/
theorem initIndex_of_stored_string_witness :
    (3 ≤ 2 ^ 53 ∧ (storeWith "k" "abc").items "k" = some "abc" ∧
      (∀ c, (unsigned "abc").head? = some c → isDigit c = false) ∧
      initIndex (storeWith "k" "abc") "k" = 0) ∧
    ((storeWith "k" "2abc").items "k" = some "2abc" ∧
      (storeWith "k" "2abc").accessible = true ∧ "2abc".toList = ['2'] ++ ['a', 'b', 'c'] ∧
      ['2'] ≠ [] ∧ (∀ c ∈ ['2'], isDigit c = true) ∧
      (∀ c, ['a', 'b', 'c'].head? = some c → isDigit c = false) ∧ mathInt ['2'] < 3 ∧
      initIndex (storeWith "k" "2abc") "k" = mathInt ['2']) :=
  ⟨⟨by decide, by decide, by decide,
    (initIndex_of_stored_string 3 (storeWith "k" "abc") "k" "abc" (by decide) (by decide)).1
      (by decide)⟩,
   ⟨by decide, by decide, by decide, by decide, by decide, by decide, by decide,
    (initIndex_of_stored_string 3 (storeWith "k" "2abc") "k" "2abc" (by decide)
      (by decide)).2 ['2'] ['a', 'b', 'c'] (by decide) (by decide) (by decide) (by decide)
      (by decide) (by decide)⟩⟩

/-! ## Printing and reading back an index -/

theorem digitChar_facts :
    ∀ d, d < 10 → isDigit (Nat.digitChar d) = true ∧ digitVal (Nat.digitChar d) = d ∧
      isWhiteSpace (Nat.digitChar d) = false ∧ Nat.digitChar d ≠ '+' ∧
      Nat.digitChar d ≠ '-' := by
  decide

theorem toDigitsCore_append (f : Nat) :
    ∀ (n : Nat) (ds : List Char),
      Nat.toDigitsCore 10 f n ds = Nat.toDigitsCore 10 f n [] ++ ds := by
  induction f with
  | zero => intro n ds; simp [Nat.toDigitsCore]
  | succ f ih =>
    intro n ds
    simp only [Nat.toDigitsCore]
    split
    · simp
    · rw [ih (n / 10) (Nat.digitChar (n % 10) :: ds), ih (n / 10) [Nat.digitChar (n % 10)]]
      simp

/-- The digits printed for `n` are the characters of a nonempty list of decimal digits whose
value is `n`. -/
theorem toDigitsCore_digits (f : Nat) :
    ∀ n, n < f → ∃ ds : List Nat, ds ≠ [] ∧ (∀ d ∈ ds, d < 10) ∧
      Nat.toDigitsCore 10 f n [] = ds.map Nat.digitChar ∧
      ds.foldl (fun a d => 10 * a + d) 0 = n := by
  induction f with
  | zero => intro n h; omega
  | succ f ih =>
    intro n hn
    simp only [Nat.toDigitsCore]
    split
    · next h0 =>
      refine ⟨[n % 10], by simp, ?_, by simp, ?_⟩
      · intro d hd
        simp only [List.mem_singleton] at hd
        omega
      · simp only [List.foldl]
        omega
    · next h0 =>
      obtain ⟨ds, hne, hlt, heq, hval⟩ := ih (n / 10) (by omega)
      refine ⟨ds ++ [n % 10], by simp, ?_, ?_, ?_⟩
      · intro d hd
        rcases List.mem_append.1 hd with h | h
        · exact hlt d h
        · simp only [List.mem_singleton] at h
          omega
      · rw [toDigitsCore_append, heq]
        simp
      · rw [List.foldl_append, hval]
        simp only [List.foldl]
        omega

theorem mathInt_map_digitChar (ds : List Nat) (h : ∀ d ∈ ds, d < 10) :
    ∀ a, (ds.map Nat.digitChar).foldl (fun acc c => 10 * acc + digitVal c) a =
      ds.foldl (fun acc d => 10 * acc + d) a := by
  induction ds with
  | nil => intro a; rfl
  | cons d ds ih =>
    intro a
    simp only [List.map, List.foldl]
    rw [(digitChar_facts d (h d (by simp))).2.1]
    exact ih (fun x hx => h x (by simp [hx])) _

/-- Reading back what `String` prints for an index below `2 ^ 53`. -/
theorem parseInt_numberToString (k : Nat) (hk : k < 2 ^ 53) :
    parseInt (numberToString (k : Int)) = .fin k := by
  obtain ⟨ds, hne, hlt, heq, hval⟩ := toDigitsCore_digits (k + 1) k (by omega)
  have hstr : (numberToString (k : Int)).toList = ds.map Nat.digitChar := by
    have h1 : ¬ ((k : Int) < 0) := by omega
    simp only [numberToString, Int.natAbs_ofNat, hk, if_true, h1, if_false]
    simp [Nat.toDigits, heq, List.asString]
  obtain ⟨d, rest, hds⟩ := List.exists_cons_of_ne_nil hne
  have hd := digitChar_facts d (hlt d (by simp [hds]))
  have htrim : trimmed (numberToString (k : Int)) = ds.map Nat.digitChar := by
    unfold trimmed
    rw [hstr, hds]
    simp [List.dropWhile, hd.2.2.1]
  have huns : unsigned (numberToString (k : Int)) = ds.map Nat.digitChar := by
    simp [unsigned, htrim, hds, hd.2.2.2.1, hd.2.2.2.2]
  have htake : (ds.map Nat.digitChar).takeWhile isDigit = ds.map Nat.digitChar := by
    rw [List.takeWhile_eq_self_iff]
    intro c hc
    obtain ⟨x, hx, rfl⟩ := List.mem_map.1 hc
    exact (digitChar_facts x (hlt x hx)).1
  have hval' : mathInt (ds.map Nat.digitChar) = k := by
    unfold mathInt
    rw [mathInt_map_digitChar ds hlt 0, hval]
  have hnil : ¬ (ds.map Nat.digitChar = []) := by simp [hds]
  have hneg : ¬ ((ds.map Nat.digitChar).head? = some '-') := by
    simp [hds, hd.2.2.2.2]
  simp only [parseInt, huns, htrim, htake, hnil, if_false, hval', toF64_small k hk, hneg,
    decide_False, Bool.false_eq_true]

theorem persistEffect_writable (key : String) (i : Int) (st : Storage)
    (hacc : st.accessible = true) (hfull : st.full = false) :
    (persistEffect key i st).items key = some (numberToString i) ∧
      (persistEffect key i st).accessible = true ∧ (persistEffect key i st).full = false := by
  simp [persistEffect, Storage.setItem, hacc, hfull]

/-- C4: with `n > 0` slides (a slide list is an array, so `n` is far below `2 ^ 53`) and an
index `k` in `[0, n)`, a store that holds under the persistence key what the persist effect
writes for `k` makes the initializer return exactly `k`. -/
theorem persist_restore_round_trip (n k : Nat) (key : String) (st : Storage) (_hn : 0 < n)
    (hk : k < n) (hlen : n ≤ 2 ^ 53) (hacc : st.accessible = true) (hfull : st.full = false) :
    (persistEffect key k st).items key = some (numberToString (k : Int)) ∧
      initIndex (persistEffect key k st) key = k := by
  have hw := persistEffect_writable key k st hacc hfull
  refine ⟨hw.1, ?_⟩
  have hp : parseInt (((persistEffect key k st).items key).getD "0") = .fin k := by
    rw [hw.1]; exact parseInt_numberToString k (by omega)
  rw [initIndex_of_parse _ key k hw.2.1 hp]
  omega

/-- Witness of C4: three slides, index 2, persisted as "2" under the key "k". -/
theorem persist_restore_round_trip_witness :
    0 < 3 ∧ 2 < 3 ∧ 3 ≤ 2 ^ 53 ∧ emptyStore.accessible = true ∧ emptyStore.full = false ∧
      (persistEffect "k" ((2 : Nat) : Int) emptyStore).items "k" = some "2" ∧
      initIndex (persistEffect "k" ((2 : Nat) : Int) emptyStore) "k" = (2 : Nat) :=
  ⟨by decide, by decide, by decide, rfl, rfl,
    persist_restore_round_trip 3 2 "k" emptyStore (by decide) (by decide) (by decide) rfl rfl⟩

/-! ## Effects on the handles -/

theorem resetFrom_getElem? (i : Int) (l : List (Option Media)) :
    ∀ (idx k : Nat), (resetFrom (fun _ => false) (fun _ => false) i idx l).1[k]? =
      (l[k]?).map fun v => v.map fun m =>
        if ((idx + k : Nat) : Int) = i then m else { paused := true, currentTime := 0 } := by
  induction l with
  | nil => intro idx k; simp [resetFrom]
  | cons v rest ih =>
    intro idx k
    cases v with
    | none =>
      cases k with
      | zero => simp [resetFrom]
      | succ k =>
        simp only [resetFrom, List.getElem?_cons_succ]
        rw [ih (idx + 1) k]
        have : idx + 1 + k = idx + (k + 1) := by omega
        rw [this]
    | some m =>
      cases k with
      | zero =>
        by_cases h : (idx : Int) = i <;> simp [resetFrom, h]
      | succ k =>
        have hk : idx + 1 + k = idx + (k + 1) := by omega
        by_cases h : (idx : Int) = i
        · simp only [resetFrom, h, if_true, List.getElem?_cons_succ]
          rw [ih (idx + 1) k, hk]
        · simp only [resetFrom, h, if_false, Bool.false_eq_true, List.getElem?_cons_succ]
          rw [ih (idx + 1) k, hk]

theorem resetEffect_getElem? (i : Int) (l : List (Option Media)) (k : Nat) :
    (resetEffect i l)[k]? =
      (l[k]?).map fun v => v.map fun m =>
        if (k : Int) = i then m else { paused := true, currentTime := 0 } := by
  unfold resetEffect resetEffectWith
  rw [resetFrom_getElem? i l 0 k]
  simp

theorem updateAt_getElem? (l : List (Option Media)) (i : Int) (f : Media → Media) (k : Nat) :
    (updateAt l i f)[k]? = (l[k]?).map fun v => if (k : Int) = i then v.map f else v := by
  simp [updateAt]

/-- C11: after the reset effect for active index `i`, every slide that has a handle and whose
index differs from `i` is paused at position 0, and the active slide's handle is exactly what
it was. -/
theorem resetEffect_resets_non_active (i : Int) (media : List (Option Media)) (idx : Nat)
    (m : Media) (h : media[idx]? = some (some m)) :
    ((idx : Int) ≠ i →
        (resetEffect i media)[idx]? = some (some { paused := true, currentTime := 0 })) ∧
      ((idx : Int) = i → (resetEffect i media)[idx]? = some (some m)) := by
  rw [resetEffect_getElem?, h]
  constructor
  · intro hne; simp [hne]
  · intro heq; simp [heq]

/-- Witness of C11: index changed to 0 while slide 2 was playing at second 5. -/
theorem resetEffect_resets_non_active_witness :
    ([some ⟨false, 3⟩, some ⟨true, 0⟩, some ⟨false, 5⟩] : List (Option Media))[2]? =
        some (some ⟨false, 5⟩) ∧
      ((((2 : Nat) : Int) ≠ 0 →
        (resetEffect 0 [some ⟨false, 3⟩, some ⟨true, 0⟩, some ⟨false, 5⟩])[2]? =
          some (some { paused := true, currentTime := 0 })) ∧
      (((2 : Nat) : Int) = 0 →
        (resetEffect 0 [some ⟨false, 3⟩, some ⟨true, 0⟩, some ⟨false, 5⟩])[2]? =
          some (some ⟨false, 5⟩))) :=
  ⟨rfl, resetEffect_resets_non_active 0 [some ⟨false, 3⟩, some ⟨true, 0⟩, some ⟨false, 5⟩] 2
    ⟨false, 5⟩ rfl⟩

/-- C12: when the observer reports no intersecting entry and the active slide is playing, the
callback leaves that slide paused at the position it had. -/
theorem onIntersect_pauses_active_keeps_position (ents : List Bool) (i : Int)
    (media : List (Option Media)) (idx : Nat) (m : Media) (hvis : ents.any id = false)
    (hidx : (idx : Int) = i) (h : media[idx]? = some (some m)) (hplay : m.paused = false) :
    (onIntersect ents i media)[idx]? =
      some (some { paused := true, currentTime := m.currentTime }) := by
  unfold onIntersect
  simp only [hvis, Bool.not_false, if_true]
  rw [updateAt_getElem?, h]
  simp [hidx, hplay]

/-- Witness of C12: slide 1 is active and playing at second 7 when the carousel leaves the
viewport. -/
theorem onIntersect_pauses_active_keeps_position_witness :
    [false].any id = false ∧ ((1 : Nat) : Int) = 1 ∧
      ([some ⟨true, 0⟩, some ⟨false, 7⟩] : List (Option Media))[1]? = some (some ⟨false, 7⟩) ∧
      (⟨false, 7⟩ : Media).paused = false ∧
      (onIntersect [false] 1 [some ⟨true, 0⟩, some ⟨false, 7⟩])[1]? =
        some (some { paused := true, currentTime := 7 }) :=
  ⟨rfl, rfl, rfl, rfl,
    onIntersect_pauses_active_keeps_position [false] 1 [some ⟨true, 0⟩, some ⟨false, 7⟩] 1
      ⟨false, 7⟩ rfl rfl rfl rfl⟩

/-- C19 (the code at the failing input): the index changes to 0 while slide 2 plays at second
5 and the seek of slide 1 throws.  The exception leaves the effect, and slide 2 is neither
paused nor rewound. -/
theorem resetEffect_seek_throw_escapes :
    resetEffectWith (fun _ => false) (fun idx => idx == 1) 0
        [some ⟨true, 0⟩, some ⟨true, 0⟩, some ⟨false, 5⟩] =
      ([some ⟨true, 0⟩, some ⟨true, 0⟩, some ⟨false, 5⟩], true) := by
  decide

/-- A `pause()` that throws is caught: when no seek throws, the effect ends without an
exception. -/
theorem resetFrom_pause_throw_caught (pauseThrows : Nat → Bool) (i : Int)
    (l : List (Option Media)) :
    ∀ idx, (resetFrom pauseThrows (fun _ => false) i idx l).2 = false := by
  induction l with
  | nil => intro idx; rfl
  | cons v rest ih =>
    intro idx
    cases v with
    | none => simp only [resetFrom]; exact ih (idx + 1)
    | some m =>
      by_cases h : (idx : Int) = i
      · simp only [resetFrom, h, if_true]; exact ih (idx + 1)
      · simp only [resetFrom, h, if_false, Bool.false_eq_true]; exact ih (idx + 1)

/-! ## Invariants of the mounted component -/

theorem trace_invariant (P : State → Prop) (n : Nat) (key : String)
    (hstep : ∀ s ev, P s → P (step n key s ev)) :
    ∀ (evs : List Event) (s : State), P s → ∀ s' ∈ trace n key s evs, P s' := by
  intro evs
  induction evs with
  | nil =>
    intro s hs s' hs'
    simp only [trace, List.mem_singleton] at hs'
    subst hs'; exact hs
  | cons ev evs ih =>
    intro s hs s' hs'
    simp only [trace, List.mem_cons] at hs'
    rcases hs' with h | h
    · subst h; exact hs
    · exact ih (step n key s ev) (hstep s ev hs) s' h

theorem run_invariant (P : State → Prop) (n : Nat) (key : String)
    (hstep : ∀ s ev, P s → P (step n key s ev)) :
    ∀ (evs : List Event) (s : State), P s → P (run n key s evs) := by
  intro evs
  induction evs with
  | nil => intro s hs; exact hs
  | cons ev evs ih =>
    intro s hs
    exact ih (step n key s ev) (hstep s ev hs)

theorem handle_storage (n : Nat) (s : State) (ev : Event) :
    (handle n s ev).storage = s.storage := by
  cases ev <;> simp only [handle] <;> first | rfl | (split <;> rfl)

theorem step_persisted (n : Nat) (key : String) (s : State) (ev : Event)
    (h : s.storage.accessible = true ∧ s.storage.full = false ∧
      s.storage.items key = some (numberToString s.i)) :
    (step n key s ev).storage.accessible = true ∧ (step n key s ev).storage.full = false ∧
      (step n key s ev).storage.items key = some (numberToString (step n key s ev).i) := by
  unfold step runEffects
  split
  · next heq => rw [handle_storage, heq]; exact h
  · next hne =>
    have hw := persistEffect_writable key (handle n s ev).i (handle n s ev).storage
      (by rw [handle_storage]; exact h.1) (by rw [handle_storage]; exact h.2.1)
    exact ⟨hw.2.1, hw.2.2, hw.1⟩

/-- C8: with a store that accepts reads and writes, after mount and after each event of any
sequence, the value stored under the persistence key is `String(i)` for the current index
`i`. -/
theorem storage_holds_current_index (n : Nat) (key : String) (st : Storage) (evs : List Event)
    (hacc : st.accessible = true) (hfull : st.full = false) :
    ∀ s ∈ trace n key (mount n key st) evs,
      s.storage.items key = some (numberToString s.i) := by
  have hw := persistEffect_writable key (initIndex st key) st hacc hfull
  intro s hs
  exact (trace_invariant
    (fun s => s.storage.accessible = true ∧ s.storage.full = false ∧
      s.storage.items key = some (numberToString s.i)) n key
    (fun s ev h => step_persisted n key s ev h) evs (mount n key st)
    ⟨hw.2.1, hw.2.2, hw.1⟩ s hs).2.2

/-- Witness of C8: three slides on an empty store, then ArrowRight and a click on Previous. -/
theorem storage_holds_current_index_witness :
    emptyStore.accessible = true ∧ emptyStore.full = false ∧
      ∀ s ∈ trace 3 "vc-index" (mount 3 "vc-index" emptyStore)
        [.keydown "ArrowRight", .clickPrevious, .clickPrevious],
        s.storage.items "vc-index" = some (numberToString s.i) :=
  ⟨rfl, rfl, storage_holds_current_index 3 "vc-index" emptyStore _ rfl rfl⟩

theorem resetEffect_onlyActive (i : Int) (x0 : Option Int) (media : List (Option Media))
    (st : Storage) :
    onlyActivePlays { i := i, x0 := x0, media := resetEffect i media, storage := st } := by
  intro idx m h hp
  simp only [resetEffect_getElem?] at h
  by_contra hne
  cases hl : media[idx]? with
  | none => simp [hl] at h
  | some v =>
    cases v with
    | none => simp [hl] at h
    | some m0 =>
      simp [hl, hne] at h
      rw [← h] at hp
      simp at hp

theorem updateAt_onlyActive (s : State) (j : Int) (f : Media → Media)
    (h : onlyActivePlays s)
    (hf : j ≠ s.i → ∀ m, (f m).paused = false → m.paused = false) :
    onlyActivePlays { s with media := updateAt s.media j f } := by
  intro idx m hm hp
  simp only [updateAt_getElem?] at hm
  by_contra hne
  have hne' : ¬ ((idx : Int) = s.i) := hne
  cases hl : s.media[idx]? with
  | none => simp [hl] at hm
  | some v =>
    by_cases hj : (idx : Int) = j
    · cases v with
      | none => simp [hl, hj] at hm
      | some m0 =>
        simp only [hl, hj, if_true, Option.map_some', Option.some.injEq] at hm
        subst hm
        exact hne (h idx m0 hl (hf (by rw [← hj]; exact hne') m0 hp))
    · simp only [hl, hj, if_false, Option.map_some', Option.some.injEq] at hm
      exact hne (h idx m (by rw [hl, hm]) hp)

theorem handle_onlyActive (n : Nat) (s : State) (ev : Event) (h : onlyActivePlays s)
    (hplay : ∀ idx, ev = .play idx → (idx : Int) = s.i)
    (hi : (handle n s ev).i = s.i) : onlyActivePlays (handle n s ev) := by
  have key : ∀ s' : State, s'.i = s.i → s'.media = s.media → onlyActivePlays s' := by
    intro s' h1 h2 idx m hm hp
    rw [h1]; rw [h2] at hm; exact h idx m hm hp
  cases ev with
  | keydown k => exact key _ hi rfl
  | clickPrevious => exact key _ hi (by simp only [handle]; split <;> rfl)
  | clickNext => exact key _ hi (by simp only [handle]; split <;> rfl)
  | touchstart x => exact key _ hi (by simp only [handle]; split <;> rfl)
  | touchmove x => exact key _ hi (by simp only [handle]; split <;> rfl)
  | ended idx => exact key _ hi (by simp only [handle]; split <;> rfl)
  | play idx =>
    exact updateAt_onlyActive s idx _ h (fun hne => absurd (hplay idx rfl) hne)
  | pause idx => exact updateAt_onlyActive s idx _ h (fun _ m hm => by simp at hm)
  | timeupdate idx t => exact updateAt_onlyActive s idx _ h (fun _ m hm => hm)
  | intersection ents =>
    simp only [handle, onIntersect]
    split
    · exact updateAt_onlyActive s s.i _ h (fun hne => absurd rfl hne)
    · exact h

theorem step_onlyActive (n : Nat) (key : String) (s : State) (ev : Event)
    (h : onlyActivePlays s) (hplay : ∀ idx, ev = .play idx → (idx : Int) = s.i) :
    onlyActivePlays (step n key s ev) := by
  unfold step runEffects
  split
  · next heq => exact handle_onlyActive n s ev h hplay heq
  · next hne => exact resetEffect_onlyActive _ _ _ _

theorem run_onlyActive (n : Nat) (key : String) (evs : List Event) :
    ∀ s : State, onlyActivePlays s → playsOnActive n key s evs = true →
      onlyActivePlays (run n key s evs) := by
  induction evs with
  | nil => intro s h _; exact h
  | cons ev evs ih =>
    intro s h hp
    simp only [playsOnActive, Bool.and_eq_true] at hp
    refine ih (step n key s ev) (step_onlyActive n key s ev h ?_) hp.2
    intro idx hev
    subst hev
    simpa using hp.1

theorem countP_le_one_of_unique {α : Type} (p : α → Bool) :
    ∀ (l : List α),
      (∀ (a b : Nat) (x y : α), l[a]? = some x → l[b]? = some y → p x = true → p y = true →
        a = b) → l.countP p ≤ 1 := by
  intro l
  induction l with
  | nil => intro _; simp
  | cons x xs ih =>
    intro h
    by_cases hx : p x = true
    · have hzero : xs.countP p = 0 := by
        rw [List.countP_eq_zero]
        intro y hy hpy
        obtain ⟨b, hb, hyb⟩ := List.getElem_of_mem hy
        have := h 0 (b + 1) x y (by simp) (by simp [List.getElem?_eq_getElem hb, hyb]) hx hpy
        omega
      rw [List.countP_cons_of_pos _ _ hx, hzero]
    · rw [List.countP_cons_of_neg _ _ hx]
      apply ih
      intro a b u v ha hb hu hv
      have := h (a + 1) (b + 1) u v (by simpa using ha) (by simpa using hb) hu hv
      omega

theorem playingCount_le_one_of_onlyActive (s : State) (h : onlyActivePlays s) :
    playingCount s.media ≤ 1 := by
  unfold playingCount
  apply countP_le_one_of_unique
  intro a b x y ha hb hx hy
  cases x with
  | none => simp at hx
  | some mx =>
    cases y with
    | none => simp at hy
    | some my =>
      have h1 := h a mx ha (by simpa using hx)
      have h2 := h b my hb (by simpa using hy)
      omega

/-- C10 (counterexample): three slides mounted on an empty store; the video of slide 0 is
started, then the video of slide 1.  No handler runs, and two slides are playing. -/
theorem two_slides_playing :
    playingCount (run 3 "vc-index" (mount 3 "vc-index" emptyStore) [.play 0, .play 1]).media
      = 2 := by
  decide

/-- C10 (amended): with handles that accept `pause()` and the seek, from mount on, after any
sequence of events in which every play is a play of the slide active at that moment (pauses,
playback progress, index changes by key, click, swipe and `ended`, and visibility reports are
free), at most one slide's video is playing; and right after any event that changes the
index at most one slide is playing, whatever was playing before. -/
theorem at_most_one_playing_of_active_plays (n : Nat) (key : String) (st : Storage)
    (evs : List Event) :
    (playsOnActive n key (mount n key st) evs = true →
        playingCount (run n key (mount n key st) evs).media ≤ 1) ∧
      (∀ (s : State) (ev : Event), (step n key s ev).i ≠ s.i →
        playingCount (step n key s ev).media ≤ 1) := by
  constructor
  · intro h
    exact playingCount_le_one_of_onlyActive _
      (run_onlyActive n key evs (mount n key st) (resetEffect_onlyActive _ _ _ _) h)
  · intro s ev hne
    apply playingCount_le_one_of_onlyActive
    unfold step runEffects at hne ⊢
    split
    · next heq =>
      rw [if_pos heq] at hne
      exact absurd heq hne
    · exact resetEffect_onlyActive _ _ _ _

/-- Witness of C10 (amended): slide 0 plays, ArrowRight makes slide 1 active and resets
slide 0, then slide 1 plays. -/
theorem at_most_one_playing_of_active_plays_witness :
    playsOnActive 3 "vc-index" (mount 3 "vc-index" emptyStore)
        [.play 0, .timeupdate 0 5, .keydown "ArrowRight", .play 1] = true ∧
      playingCount (run 3 "vc-index" (mount 3 "vc-index" emptyStore)
        [.play 0, .timeupdate 0 5, .keydown "ArrowRight", .play 1]).media ≤ 1 :=
  ⟨by decide,
    (at_most_one_playing_of_active_plays 3 "vc-index" emptyStore
      [.play 0, .timeupdate 0 5, .keydown "ArrowRight", .play 1]).1 (by decide)⟩

/-! ## Keyboard and touch input -/

/-- C13: with `n > 0` slides and index `p` in `[0, n)`, the keydown handler gives
`(p + 1) mod n` on "ArrowRight", `(p - 1 + n) mod n` on "ArrowLeft" and `p` on every other
key; with no slide it gives `p` on every key. -/
theorem onKey_arrows (n : Nat) (p : Int) (hn : 0 < n) (hp : 0 ≤ p) (hlt : p < n) :
    onKey n "ArrowRight" p = (p + 1) % n ∧ onKey n "ArrowLeft" p = (p - 1 + n) % n ∧
      (∀ key, key ≠ "ArrowRight" → key ≠ "ArrowLeft" → onKey n key p = p) ∧
      (∀ key q, onKey 0 key q = q) := by
  have hn0 : ¬ n = 0 := by omega
  refine ⟨?_, ?_, ?_, ?_⟩
  · have h : ¬ ("ArrowRight" = "ArrowLeft") := by decide
    simp only [onKey, hn0, if_false, if_true, h]
    exact nextIndex_eq_emod n p hp hlt
  · have h : ¬ ("ArrowLeft" = "ArrowRight") := by decide
    simp only [onKey, hn0, if_false, if_true, h]
    exact prevIndex_eq_emod n p hn hp hlt
  · intro key h1 h2
    simp only [onKey, hn0, h1, h2, if_false]
  · intro key q
    simp only [onKey, if_true]

/-- Witness of C13: three slides, index 0. -/
theorem onKey_arrows_witness :
    0 < 3 ∧ (0 : Int) ≤ 0 ∧ (0 : Int) < (3 : Nat) ∧
      (onKey 3 "ArrowRight" 0 = (0 + 1) % (3 : Nat) ∧
        onKey 3 "ArrowLeft" 0 = (0 - 1 + (3 : Nat)) % (3 : Nat) ∧
        (∀ key, key ≠ "ArrowRight" → key ≠ "ArrowLeft" → onKey 3 key 0 = 0) ∧
        (∀ key q, onKey 0 key q = q)) :=
  ⟨by decide, by decide, by decide, onKey_arrows 3 0 (by decide) (by decide) (by decide)⟩

theorem mv_below_threshold (count : Nat) (c : Option Int) (x : Int)
    (h : |c.getD 0 - x| ≤ 40) : mv count c (some x) = (some x, []) := by
  simp only [mv]
  rw [if_neg (by omega)]

theorem mv_above_threshold (count : Nat) (c : Option Int) (x : Int)
    (h : |c.getD 0 - x| > 40) :
    mv count c (some x) = (none, [swipeIndex count (c.getD 0 - x)]) := by
  simp only [mv]
  rw [if_pos h]

theorem gesture_untracked (count : Nat) (cs : List (Option Int)) :
    gesture count none cs = (none, []) := by
  induction cs with
  | nil => rfl
  | cons c cs ih => simp [gesture, mv, ih]

theorem gesture_below_threshold (count : Nat) (x : Int) (cs : List (Option Int))
    (h : ∀ c ∈ cs, |c.getD 0 - x| ≤ 40) : gesture count (some x) cs = (some x, []) := by
  induction cs with
  | nil => rfl
  | cons c cs ih =>
    have hc := mv_below_threshold count c x (h c (by simp))
    simp only [gesture, hc]
    rw [ih (fun d hd => h d (by simp [hd]))]
    rfl

theorem gesture_append (count : Nat) (cs ds : List (Option Int)) :
    ∀ x0, gesture count x0 (cs ++ ds) =
      ((gesture count (gesture count x0 cs).1 ds).1,
        (gesture count x0 cs).2 ++ (gesture count (gesture count x0 cs).1 ds).2) := by
  induction cs with
  | nil => intro x0; simp [gesture]
  | cons c cs ih =>
    intro x0
    rw [List.cons_append]
    simp only [gesture]
    rw [ih]
    simp

/-- C14: in a gesture tracked from `x`, touch-moves whose displacement `dx` has `|dx| ≤ 40`
pass no updater to `setI` and keep `x` tracked; the first touch-move with `|dx| > 40`,
measured from the same `x`, passes exactly one and clears the start point. -/
theorem swipe_threshold (count : Nat) (x : Int) (cs : List (Option Int)) (c : Option Int)
    (hsmall : ∀ d ∈ cs, |d.getD 0 - x| ≤ 40) (hbig : |c.getD 0 - x| > 40) :
    gesture count (some x) cs = (some x, []) ∧
      (gesture count (some x) (cs ++ [c])).2.length = 1 ∧
      (gesture count (some x) (cs ++ [c])).1 = none := by
  have h1 := gesture_below_threshold count x cs hsmall
  refine ⟨h1, ?_, ?_⟩
  · rw [gesture_append, h1]
    simp [gesture, mv_above_threshold count c x hbig]
  · rw [gesture_append, h1]
    simp [gesture, mv_above_threshold count c x hbig]

/-- Witness of C14: start at 100, a move to 110 (10px), then a move to 145 (45px from the
start). -/
theorem swipe_threshold_witness :
    (∀ d ∈ [some (110 : Int)], |d.getD 0 - 100| ≤ 40) ∧ |(some (145 : Int)).getD 0 - 100| > 40 ∧
      (gesture 3 (some 100) [some 110] = (some 100, []) ∧
        (gesture 3 (some 100) ([some 110] ++ [some 145])).2.length = 1 ∧
        (gesture 3 (some 100) ([some 110] ++ [some 145])).1 = none) :=
  ⟨by decide, by decide, swipe_threshold 3 100 [some 110] (some 145) (by decide) (by decide)⟩

/-- C15: with `n > 0` slides and index `p` in `[0, n)`, a touch-move that passes the threshold
with `dx < -40` sets the index to `(p + 1) mod n`, and one with `dx > 40` sets it to
`(p - 1 + n) mod n`. -/
theorem swipe_direction (n : Nat) (p x : Int) (c : Option Int) (hn : 0 < n) (hp : 0 ≤ p)
    (hlt : p < n) :
    (c.getD 0 - x < -40 → applyUpdates (mv n c (some x)).2 p = (p + 1) % n) ∧
      (c.getD 0 - x > 40 → applyUpdates (mv n c (some x)).2 p = (p - 1 + n) % n) := by
  constructor
  · intro h
    rw [mv_above_threshold n c x (by rw [gt_iff_lt, lt_abs]; right; omega)]
    simp only [applyUpdates, List.foldl]
    rw [swipeIndex_eq_emod n _ p hn hp hlt, if_pos (by omega)]
    rw [Int.add_emod_self]
  · intro h
    rw [mv_above_threshold n c x (by rw [gt_iff_lt, lt_abs]; left; omega)]
    simp only [applyUpdates, List.foldl]
    rw [swipeIndex_eq_emod n _ p hn hp hlt, if_neg (by omega)]
    rfl

/-- Witness of C15: three slides, index 0, start at 100, a move to 50 and a move to 150. -/
theorem swipe_direction_witness :
    0 < 3 ∧ (0 : Int) ≤ 0 ∧ (0 : Int) < (3 : Nat) ∧
      ((some (50 : Int)).getD 0 - 100 < -40 →
        applyUpdates (mv 3 (some 50) (some 100)).2 0 = (0 + 1) % (3 : Nat)) ∧
      ((some (50 : Int)).getD 0 - 100 > 40 →
        applyUpdates (mv 3 (some 50) (some 100)).2 0 = (0 - 1 + (3 : Nat)) % (3 : Nat)) :=
  ⟨by decide, by decide, by decide,
    swipe_direction 3 0 100 (some 50) (by decide) (by decide) (by decide)⟩

/-- C16: the touch-moves of one gesture, whatever their coordinates, pass at most one updater
to `setI`; once one is passed the start point is null, and with a null start point a
touch-move does nothing. -/
theorem swipe_at_most_once (count : Nat) (x0 : Option Int) (cs : List (Option Int)) :
    (gesture count x0 cs).2.length ≤ 1 ∧
      ((gesture count x0 cs).2.length = 1 → (gesture count x0 cs).1 = none) ∧
      (∀ c, mv count c none = (none, [])) := by
  refine ⟨?_, ?_, fun c => rfl⟩
  · induction cs generalizing x0 with
    | nil => simp [gesture]
    | cons c cs ih =>
      cases x0 with
      | none => simp [gesture_untracked]
      | some x =>
        by_cases h : |c.getD 0 - x| > 40
        · simp [gesture, mv_above_threshold count c x h, gesture_untracked]
        · simp only [gesture, mv_below_threshold count c x (by omega), List.nil_append]
          exact ih (some x)
  · induction cs generalizing x0 with
    | nil => simp [gesture]
    | cons c cs ih =>
      cases x0 with
      | none => simp [gesture_untracked]
      | some x =>
        by_cases h : |c.getD 0 - x| > 40
        · simp [gesture, mv_above_threshold count c x h, gesture_untracked]
        · simp only [gesture, mv_below_threshold count c x (by omega), List.nil_append]
          exact ih (some x)

/-- C17: three slides mounted on an empty store start at index 0; a swipe to the left (touch
at 100, move to 50) gives 1, ArrowRight gives 2, and `ended` from slide 2 gives 0. -/
theorem scenario_swipe_key_ended :
    (trace 3 "vc-index" (mount 3 "vc-index" emptyStore)
      [.touchstart (some 100), .touchmove (some 50), .keydown "ArrowRight", .ended 2]).map
        (fun s => s.i) = [0, 0, 1, 2, 0] := by
  decide

theorem step_no_slides (key : String) (s : State) (ev : Event) :
    (step 0 key s ev).i = s.i := by
  unfold step
  rw [runEffects_i]
  cases ev <;> simp [handle, onKey]

/-- C18: with no slide the render is `null` and no event changes the index: key presses,
touch-starts and touch-moves (and any other event) leave it as it was. -/
theorem no_slides_no_input (key : String) (s : State) (i : Int) (evs : List Event) :
    render 0 i = none ∧ (run 0 key s evs).i = s.i := by
  refine ⟨rfl, ?_⟩
  induction evs generalizing s with
  | nil => rfl
  | cons ev evs ih =>
    simp only [run, List.foldl] at ih ⊢
    rw [ih (step 0 key s ev), step_no_slides]

/-- C20: with `n > 0` slides and index `p` in `[0, n)`, the updater of ArrowRight, Next and
`ended` is the spec's `advance(+1)`, the updater of ArrowLeft and Previous is `advance(-1)`,
and the swipe updater is `advance(d)` for its direction `d`, which is `+1` or `-1`. -/
theorem updaters_refine_advance (n : Nat) (p : Int) (hn : 0 < n) (hp : 0 ≤ p) (hlt : p < n) :
    nextIndex n p = specAdvance n 1 p ∧ prevIndex n p = specAdvance n (-1) p ∧
      onKey n "ArrowRight" p = specAdvance n 1 p ∧ onKey n "ArrowLeft" p = specAdvance n (-1) p ∧
      onEnded n p p.toNat p = specAdvance n 1 p ∧
      (∀ dx : Int, swipeIndex n dx p = specAdvance n (if dx < 0 then 1 else -1) p ∧
        ((if dx < 0 then (1 : Int) else -1) = 1 ∨ (if dx < 0 then (1 : Int) else -1) = -1)) := by
  have hn0 : ¬ n = 0 := by omega
  have hnext : nextIndex n p = specAdvance n 1 p := by
    rw [nextIndex_eq_emod n p hp hlt]; unfold specAdvance; rw [Int.add_emod_self]
  have hprev : prevIndex n p = specAdvance n (-1) p := by
    rw [prevIndex_eq_emod n p hn hp hlt]; rfl
  refine ⟨hnext, hprev, ?_, ?_, ?_, ?_⟩
  · have h : ¬ ("ArrowRight" = "ArrowLeft") := by decide
    simp only [onKey, hn0, if_false, if_true, h]
    exact hnext
  · have h : ¬ ("ArrowLeft" = "ArrowRight") := by decide
    simp only [onKey, hn0, if_false, if_true, h]
    exact hprev
  · unfold onEnded
    rw [if_neg (by simp [Int.toNat_of_nonneg hp])]
    exact hnext
  · intro dx
    constructor
    · rw [swipeIndex_eq_emod n dx p hn hp hlt]; rfl
    · split
      · left; rfl
      · right; rfl

/-- Witness of C20: three slides, index 2. -/
theorem updaters_refine_advance_witness :
    0 < 3 ∧ (0 : Int) ≤ 2 ∧ (2 : Int) < (3 : Nat) ∧
      (nextIndex 3 2 = specAdvance 3 1 2 ∧ prevIndex 3 2 = specAdvance 3 (-1) 2 ∧
      onKey 3 "ArrowRight" 2 = specAdvance 3 1 2 ∧ onKey 3 "ArrowLeft" 2 = specAdvance 3 (-1) 2 ∧
      onEnded 3 2 (2 : Int).toNat 2 = specAdvance 3 1 2 ∧
      (∀ dx : Int, swipeIndex 3 dx 2 = specAdvance 3 (if dx < 0 then 1 else -1) 2 ∧
        ((if dx < 0 then (1 : Int) else -1) = 1 ∨ (if dx < 0 then (1 : Int) else -1) = -1))) :=
  ⟨by decide, by decide, by decide, updaters_refine_advance 3 2 (by decide) (by decide) (by decide)⟩

/-! ## Frame properties -/

/-- C21: for two different persistence keys, the persist effect of a carousel configured with
`k1` leaves the value stored under `k2` unchanged, whatever index it writes. -/
theorem persistEffect_other_key (k1 k2 : String) (i : Int) (st : Storage) (h : k1 ≠ k2) :
    (persistEffect k1 i st).items k2 = st.items k2 := by
  unfold persistEffect Storage.setItem
  split
  · next st' heq =>
    split at heq
    · cases heq
      simp [Ne.symm h]
    · cases heq
  · rfl

/-- Witness of C21: the keys "vc-index" and "other", the latter holding "1". -/
theorem persistEffect_other_key_witness :
    "vc-index" ≠ "other" ∧
      (persistEffect "vc-index" 2 (storeWith "other" "1")).items "other" =
        (storeWith "other" "1").items "other" :=
  ⟨by decide, persistEffect_other_key "vc-index" "other" 2 (storeWith "other" "1") (by decide)⟩

theorem step_intersection (n : Nat) (key : String) (s : State) (ents : List Bool) :
    step n key s (.intersection ents) = { s with media := onIntersect ents s.i s.media } := by
  simp [step, handle, runEffects]

/-- C22: the observer callback never changes the index, never changes the handle of a slide
other than the active one, and changes nothing at all when an entry is intersecting. -/
theorem intersection_frame (n : Nat) (key : String) (s : State) (ents : List Bool) :
    (step n key s (.intersection ents)).i = s.i ∧
      (∀ idx : Nat, (idx : Int) ≠ s.i →
        (step n key s (.intersection ents)).media[idx]? = s.media[idx]?) ∧
      (ents.any id = true → step n key s (.intersection ents) = s) := by
  rw [step_intersection]
  refine ⟨rfl, ?_, ?_⟩
  · intro idx hne
    simp only [onIntersect]
    split
    · rw [updateAt_getElem?]
      simp [hne]
    · rfl
  · intro hvis
    simp [onIntersect, hvis]

/-- Witness of C22: three slides, slide 0 playing, and a report with an intersecting entry. -/
theorem intersection_frame_witness :
    [true].any id = true ∧
      step 3 "vc-index" (run 3 "vc-index" (mount 3 "vc-index" emptyStore) [.play 0])
          (.intersection [true]) =
        run 3 "vc-index" (mount 3 "vc-index" emptyStore) [.play 0] :=
  ⟨rfl, (intersection_frame 3 "vc-index"
    (run 3 "vc-index" (mount 3 "vc-index" emptyStore) [.play 0]) [true]).2.2 rfl⟩

/-- C23: with `n > 0` slides and any non-negative index `p`, also one at or above `n` or above
`2 ^ 53` (where the sums of the updaters round as doubles do), a single update through
ArrowRight, ArrowLeft, the Next or Previous button or a swipe in either direction gives an
index in `[0, n)`. -/
theorem stale_index_heals (n : Nat) (p : Int) (hn : 0 < n) (hp : 0 ≤ p) :
    (0 ≤ onKey n "ArrowRight" p ∧ onKey n "ArrowRight" p < n) ∧
      (0 ≤ onKey n "ArrowLeft" p ∧ onKey n "ArrowLeft" p < n) ∧
      (0 ≤ nextIndex n p ∧ nextIndex n p < n) ∧
      (0 ≤ prevIndex n p ∧ prevIndex n p < n) ∧
      (∀ dx : Int, 0 ≤ swipeIndex n dx p ∧ swipeIndex n dx p < n) := by
  have hn0 : ¬ n = 0 := by omega
  have hr : ¬ ("ArrowRight" = "ArrowLeft") := by decide
  have hl : ¬ ("ArrowLeft" = "ArrowRight") := by decide
  refine ⟨?_, ?_, nextIndex_range n p hn hp, prevIndex_range n p hn hp,
    fun dx => swipeIndex_range n dx p hn hp⟩
  · simp only [onKey, hn0, if_false, if_true, hr]
    exact nextIndex_range n p hn hp
  · simp only [onKey, hn0, if_false, if_true, hl]
    exact prevIndex_range n p hn hp

/-- Witness of C23: three slides and the stale index 9. -/
theorem stale_index_heals_witness :
    0 < 3 ∧ (0 : Int) ≤ 9 ∧
      ((0 ≤ onKey 3 "ArrowRight" 9 ∧ onKey 3 "ArrowRight" 9 < (3 : Nat)) ∧
      (0 ≤ onKey 3 "ArrowLeft" 9 ∧ onKey 3 "ArrowLeft" 9 < (3 : Nat)) ∧
      (0 ≤ nextIndex 3 9 ∧ nextIndex 3 9 < (3 : Nat)) ∧
      (0 ≤ prevIndex 3 9 ∧ prevIndex 3 9 < (3 : Nat)) ∧
      (∀ dx : Int, 0 ≤ swipeIndex 3 dx 9 ∧ swipeIndex 3 dx 9 < (3 : Nat))) :=
  ⟨by decide, by decide, stale_index_heals 3 9 (by decide) (by decide)⟩

/-! ## Cycles -/

theorem nextIndex_iterate (n : Nat) (i : Int) (hn : 0 < n) (hi : 0 ≤ i) (hlt : i < n)
    (k : Nat) : (nextIndex n)^[k] i = (i + k) % n := by
  induction k with
  | zero =>
    simp only [Function.iterate_zero, id_eq, Nat.cast_zero, add_zero]
    exact (Int.emod_eq_of_lt hi hlt).symm
  | succ k ih =>
    rw [Function.iterate_succ_apply', ih]
    rw [nextIndex_eq_emod n _ (Int.emod_nonneg _ (by omega)) (Int.emod_lt_of_pos _ (by omega)),
      Int.emod_add_emod]
    congr 1
    push_cast
    ring

theorem prevIndex_iterate (n : Nat) (i : Int) (hn : 0 < n) (hi : 0 ≤ i) (hlt : i < n)
    (k : Nat) : (prevIndex n)^[k] i = (i - k) % n := by
  induction k with
  | zero =>
    simp only [Function.iterate_zero, id_eq, Nat.cast_zero, sub_zero]
    exact (Int.emod_eq_of_lt hi hlt).symm
  | succ k ih =>
    rw [Function.iterate_succ_apply', ih]
    rw [prevIndex_eq_emod n _ hn (Int.emod_nonneg _ (by omega))
      (Int.emod_lt_of_pos _ (by omega))]
    have h1 : (i - k) % (n : Int) - 1 + n = (i - k) % (n : Int) + (-1 + n) := by ring
    rw [h1, Int.emod_add_emod]
    have h2 : i - (k : Int) + (-1 + (n : Int)) = (i - ((k + 1 : Nat) : Int)) + n := by
      push_cast; ring
    rw [h2, Int.add_emod_self]

/-- C24: with `n > 0` slides and index `i` in `[0, n)`, the next-slide update applied `n`
times gives `i`, the previous-slide update applied `n` times gives `i`, and the next-slide
update applied `k` times with `0 < k < n` gives an index other than `i`. -/
theorem full_cycle (n : Nat) (i : Int) (hn : 0 < n) (hi : 0 ≤ i) (hlt : i < n) :
    (nextIndex n)^[n] i = i ∧ (prevIndex n)^[n] i = i ∧
      (∀ k : Nat, 0 < k → k < n → (nextIndex n)^[k] i ≠ i) := by
  refine ⟨?_, ?_, ?_⟩
  · rw [nextIndex_iterate n i hn hi hlt n, Int.add_emod_self]
    exact Int.emod_eq_of_lt hi hlt
  · rw [prevIndex_iterate n i hn hi hlt n]
    have h : i - (n : Int) = i + (-1) * n := by ring
    rw [h, Int.add_mul_emod_self]
    exact Int.emod_eq_of_lt hi hlt
  · intro k hk0 hkn
    rw [nextIndex_iterate n i hn hi hlt k]
    by_cases h : i + k < n
    · rw [Int.emod_eq_of_lt (by omega) h]
      omega
    · have h1 : i + (k : Int) = (i + k - n) + n := by ring
      rw [h1, Int.add_emod_self, Int.emod_eq_of_lt (by omega) (by omega)]
      omega

/-- Witness of C24: three slides, index 1. -/
theorem full_cycle_witness :
    0 < 3 ∧ (0 : Int) ≤ 1 ∧ (1 : Int) < (3 : Nat) ∧
      ((nextIndex 3)^[3] 1 = 1 ∧ (prevIndex 3)^[3] 1 = 1 ∧
      (∀ k : Nat, 0 < k → k < 3 → (nextIndex 3)^[k] 1 ≠ 1)) :=
  ⟨by decide, by decide, by decide, full_cycle 3 1 (by decide) (by decide) (by decide)⟩

end VideoCarousel

/-! # FAQSection -/

namespace FAQSection

theorem toggle_single_card (idx : Nat) (prev : Finset Nat) (h : prev.card ≤ 1) :
    (toggle false idx prev).card ≤ 1 := by
  unfold toggle
  split
  · exact le_trans (Finset.card_erase_le) h
  · simp

theorem openAfter_single_card (idxs : List Nat) :
    ∀ prev : Finset Nat, prev.card ≤ 1 →
      (idxs.foldl (fun prev idx => toggle false idx prev) prev).card ≤ 1 := by
  induction idxs with
  | nil => intro prev h; exact h
  | cons idx idxs ih =>
    intro prev h
    exact ih _ (toggle_single_card idx prev h)

/-- C25: with `allowMultiple = false`, after any sequence of `toggle` calls from the empty set
the open set has at most one element, and toggling an index that is closed then leaves
exactly that index open. -/
theorem single_mode_at_most_one_open (idxs : List Nat) (idx : Nat) :
    (openAfter false idxs).card ≤ 1 ∧
      (idx ∉ openAfter false idxs → toggle false idx (openAfter false idxs) = {idx}) := by
  constructor
  · exact openAfter_single_card idxs ∅ (by simp)
  · intro h
    simp [toggle, h]

/-- Witness of C25: entries 1, 2 and 2 again toggled, then the closed entry 3. -/
theorem single_mode_at_most_one_open_witness :
    (openAfter false [1, 2, 2]).card ≤ 1 ∧ 3 ∉ openAfter false [1, 2, 2] ∧
      toggle false 3 (openAfter false [1, 2, 2]) = {3} :=
  ⟨(single_mode_at_most_one_open [1, 2, 2] 3).1, by decide,
    (single_mode_at_most_one_open [1, 2, 2] 3).2 (by decide)⟩

/-- C26: with `allowMultiple = true`, `toggle(idx)` flips the membership of `idx`, keeps the
membership of every other index, and applied twice gives the open set back. -/
theorem multi_mode_toggle_flips (idx : Nat) (prev : Finset Nat) :
    (idx ∈ toggle true idx prev ↔ idx ∉ prev) ∧
      (∀ j, j ≠ idx → (j ∈ toggle true idx prev ↔ j ∈ prev)) ∧
      toggle true idx (toggle true idx prev) = prev := by
  by_cases h : idx ∈ prev
  · refine ⟨by simp [toggle, h], ?_, ?_⟩
    · intro j hj
      simp [toggle, h, hj]
    · simp [toggle, h, Finset.insert_erase h]
  · refine ⟨by simp [toggle, h], ?_, ?_⟩
    · intro j hj
      simp [toggle, h, hj]
    · simp [toggle, h, Finset.erase_insert h]


/-- Witness of C26: entry 2 toggled in the open set of entries 1 and 2. -/
theorem multi_mode_toggle_flips_witness :
    (1 : Nat) ≠ 2 ∧ ((1 : Nat) ∈ toggle true 2 {1, 2} ↔ (1 : Nat) ∈ ({1, 2} : Finset Nat)) ∧
      toggle true 2 (toggle true 2 {1, 2}) = {1, 2} :=
  ⟨by decide, (multi_mode_toggle_flips 2 {1, 2}).2.1 1 (by decide),
    (multi_mode_toggle_flips 2 {1, 2}).2.2⟩

end FAQSection

/-! # App: contact form -/

namespace App

theorem find_filter_other (rest : List (String × String)) (name other : String)
    (h : other ≠ name) :
    (rest.filter fun e => e.1 ≠ name).find? (fun e => e.1 = other) =
      rest.find? (fun e => e.1 = other) := by
  induction rest with
  | nil => rfl
  | cons e rest ih =>
    obtain ⟨k, v⟩ := e
    by_cases h1 : k = name
    · subst h1
      have h2 : ¬ k = other := fun hc => h hc.symm
      simpa [List.filter_cons, List.find?_cons, h2] using ih
    · by_cases h2 : k = other
      · subst h2
        simp [List.filter_cons, List.find?_cons, h1]
      · simpa [List.filter_cons, List.find?_cons, h1, h2] using ih

theorem fdGet_fdSet_other (fd : List (String × String)) (name other value : String)
    (h : other ≠ name) : fdGet (fdSet fd name value) other = fdGet fd other := by
  induction fd with
  | nil => simp [fdSet, fdGet, List.find?, Ne.symm h]
  | cons e rest ih =>
    obtain ⟨k, v⟩ := e
    by_cases hk : k = name
    · subst hk
      have hko : ¬ (k = other) := fun hc => h hc.symm
      simp only [fdSet, if_true, fdGet, List.find?_cons, hko, decide_False]
      rw [find_filter_other rest k other h]
    · by_cases hko : k = other
      · subst hko
        simp [fdSet, hk, fdGet, List.find?_cons]
      · simp only [fdSet, hk, if_false, fdGet, List.find?_cons, hko, decide_False]
        exact ih

theorem fdGet_withFormName (formName : Option String) (fields : List (String × String)) :
    fdGet (withFormName formName fields) "bot-field" = fdGet fields "bot-field" := by
  unfold withFormName
  split
  · exact fdGet_fdSet_other fields "form-name" "bot-field" _ (by decide)
  · rfl

/-- C27: when `bot-field` has a non-empty value and `submitting` is false, the handler issues
no request, sets `showThanks` and ends with `submitting` false; when `submitting` is true it
issues no request and changes neither flag. -/
theorem honeypot_and_resubmit (s : FormState) (formName : Option String)
    (fields : List (String × String)) (result : FetchResult) :
    (s.submitting = false → truthy (fdGet fields "bot-field") = true →
        (handleContactSubmit s formName fields result).requests = s.requests ∧
        (handleContactSubmit s formName fields result).showThanks = true ∧
        (handleContactSubmit s formName fields result).submitting = false) ∧
      (s.submitting = true →
        (handleContactSubmit s formName fields result).requests = s.requests ∧
        (handleContactSubmit s formName fields result).submitting = s.submitting ∧
        (handleContactSubmit s formName fields result).showThanks = s.showThanks) := by
  constructor
  · intro hs hbot
    simp [handleContactSubmit, hs, fdGet_withFormName, hbot]
  · intro hs
    simp [handleContactSubmit, hs]


/-- Witness of C27: a submit with `bot-field` filled in, and a submit while another one is in
flight. -/
theorem honeypot_and_resubmit_witness :
    ((⟨false, false, [], [], 0⟩ : FormState).submitting = false ∧
      truthy (fdGet [("form-name", "contact"), ("bot-field", "spam"), ("name", "a")]
        "bot-field") = true ∧
      (handleContactSubmit ⟨false, false, [], [], 0⟩ (some "contact")
        [("form-name", "contact"), ("bot-field", "spam"), ("name", "a")] .ok).requests = [] ∧
      (handleContactSubmit ⟨false, false, [], [], 0⟩ (some "contact")
        [("form-name", "contact"), ("bot-field", "spam"), ("name", "a")] .ok).showThanks
        = true ∧
      (handleContactSubmit ⟨false, false, [], [], 0⟩ (some "contact")
        [("form-name", "contact"), ("bot-field", "spam"), ("name", "a")] .ok).submitting
        = false) ∧
    ((⟨true, false, [], [], 0⟩ : FormState).submitting = true ∧
      (handleContactSubmit ⟨true, false, [], [], 0⟩ (some "contact")
        [("form-name", "contact"), ("name", "a")] .ok).requests = [] ∧
      (handleContactSubmit ⟨true, false, [], [], 0⟩ (some "contact")
        [("form-name", "contact"), ("name", "a")] .ok).submitting = true ∧
      (handleContactSubmit ⟨true, false, [], [], 0⟩ (some "contact")
        [("form-name", "contact"), ("name", "a")] .ok).showThanks = false) :=
  ⟨⟨rfl, by decide,
    (honeypot_and_resubmit ⟨false, false, [], [], 0⟩ (some "contact")
      [("form-name", "contact"), ("bot-field", "spam"), ("name", "a")] .ok).1 rfl (by decide)⟩,
   ⟨rfl,
    (honeypot_and_resubmit ⟨true, false, [], [], 0⟩ (some "contact")
      [("form-name", "contact"), ("name", "a")] .ok).2 rfl⟩⟩

end App
